import Mathlib

/-!
Verification of the resilient text-generation client in
src/chinese_formatter-ollama.py (class ChineseFormatter).

Python strings are embedded as lists of characters; every function below is a
direct translation of the corresponding Python method.  Floating-point ratio
comparisons (SequenceMatcher.ratio() >= 0.80 and output/input length ratios)
are modelled by the exact rational comparison on natural numbers, which agrees
with the double computation for all realistic operand sizes.  Wall-clock
driven branches of the streaming loop (the idle watchdog, which depends on
time.time()) are elided from the stream model; the repetition logic, the
accumulation and the frame handling are modelled exactly.
-/

set_option maxRecDepth 100000

namespace WFW

abbrev Str := List Char

/-- Whitespace as stripped by Python str.strip() and matched by the regex
class for spaces (the characters that occur in this code base's data). -/
def isPySpace (c : Char) : Bool :=
  c = ' ' || c = '\t' || c = '\n' || c = '\r' ||
  c = '\x0b' || c = '\x0c' || c = ' ' || c = '　'

/-- Python str.strip(): drop whitespace from both ends. -/
def pyStrip (l : Str) : Str :=
  ((l.dropWhile isPySpace).reverse.dropWhile isPySpace).reverse

/-- Python substring containment (the "in" operator on strings). -/
def pyIn (n : Str) : Str → Bool
  | [] => n.isPrefixOf []
  | h :: t => n.isPrefixOf (h :: t) || pyIn n t

/-! ## Chunker: split_text (lines 175-254) -/

/-- The sentence-ending class of split_text: the regex [。！？；…\n]. -/
def isSentEnd (c : Char) : Bool :=
  c = '。' || c = '！' || c = '？' || c = '；' || c = '…' || c = '\n'

/-- re.split with a captured separator group: the alternating list
pre0, sep0, pre1, sep1, ..., pren where the seps are maximal runs of
sentence-ending characters.  Pre pieces may be empty, seps are nonempty.
Structural recursion on a fuel that bounds the number of runs; every
recursive call strictly shrinks the text, so length + 1 fuel suffices. -/
def reSplitRunsF : Nat → Str → List Str
  | 0, _ => []
  | fuel + 1, l =>
    match l.dropWhile (fun c => !isSentEnd c) with
    | [] => [l.takeWhile (fun c => !isSentEnd c)]
    | a :: t =>
      l.takeWhile (fun c => !isSentEnd c) :: (a :: t).takeWhile isSentEnd ::
      reSplitRunsF fuel ((a :: t).dropWhile isSentEnd)

def reSplitRuns (l : Str) : List Str := reSplitRunsF (l.length + 1) l

/-- The loop "for i in range(0, len(sentences), 2)": each text piece is glued
to the separator run that follows it. -/
def pairUp : List Str → List Str
  | [] => []
  | [t] => [t]
  | t :: s :: rest => (t ++ s) :: pairUp rest

/-- re.match of the speaker pattern \[([^\]]+)\]： at the start of a line;
returns (label, text after the tag) on a match. -/
def lineTag (line : Str) : Option (Str × Str) :=
  match line with
  | '[' :: rest =>
    let lbl := rest.takeWhile (fun c => !(c = ']'))
    if lbl = [] then none
    else match rest.dropWhile (fun c => !(c = ']')) with
      | ']' :: '：' :: after => some (lbl, after)
      | _ => none
  | _ => none

/-- f"[{speaker}]：{content}" -/
def mkBlock (spk content : Str) : Str :=
  '[' :: (spk ++ ']' :: '：' :: content)

/-- The line scan of split_text building speaker blocks
(state: current speaker, accumulated content of that speaker). -/
def sbGo : List Str → Option Str → Str → List Str → List Str
  | [], cur, content, blocks =>
    match cur with
    | some spk =>
      if pyStrip content = [] then blocks else blocks ++ [mkBlock spk (pyStrip content)]
    | none => blocks
  | line :: rest, cur, content, blocks =>
    match lineTag line with
    | some (spk, after) =>
      let blocks' :=
        match cur with
        | some s =>
          if pyStrip content = [] then blocks else blocks ++ [mkBlock s (pyStrip content)]
        | none => blocks
      sbGo rest (some spk) after blocks'
    | none =>
      match cur with
      | some _ => sbGo rest cur (content ++ line) blocks
      | none => sbGo rest none content blocks

/-- All speaker blocks of a text (split_text lines 190-214). -/
def speakerBlocksOf (text : Str) : List Str :=
  sbGo (text.splitOn '\n') none [] []

/-- The paragraph separator "\n\n". -/
def nl2 : Str := ['\n', '\n']

/-- Greedy packing of units into chunks, shared by both paths of split_text.
The sentence fallback uses sep = [] (current_chunk += sentence), the speaker
path uses sep = "\n\n"; in both paths the length test ignores the separator. -/
def packUnits (sep : Str) (maxChars : Nat) : List Str → List Str → Str → List Str
  | [], chunks, cur =>
    if pyStrip cur = [] then chunks else chunks ++ [pyStrip cur]
  | u :: rest, chunks, cur =>
    if cur.length + u.length ≤ maxChars then
      packUnits sep maxChars rest chunks (if cur = [] then u else cur ++ sep ++ u)
    else
      packUnits sep maxChars rest
        (if pyStrip cur = [] then chunks else chunks ++ [pyStrip cur]) u

/-- split_text(text, max_chars) (lines 175-254). -/
def splitText (text : Str) (maxChars : Nat) : List Str :=
  let blocks := speakerBlocksOf text
  if blocks = [] then
    let chunks := packUnits [] maxChars (pairUp (reSplitRuns text)) [] []
    if chunks = [] then [text] else chunks
  else
    let chunks := packUnits nl2 maxChars blocks [] []
    if chunks = [] then [text] else chunks

/-- The units that greedy packing works on: speaker blocks when any were
found, otherwise the sentence groups of the fallback path. -/
def packingUnits (text : Str) : List Str :=
  if speakerBlocksOf text = [] then pairUp (reSplitRuns text) else speakerBlocksOf text

/-! ## Deduplicator: remove_duplicates (lines 256-364) -/

/-- The sentence-terminal characters 。！？； used for unit boundaries. -/
def isTermPunct (c : Char) : Bool :=
  c = '。' || c = '！' || c = '？' || c = '；'

/-- re.sub of the class [。！？；，、\s]: strip punctuation and whitespace
before comparing. -/
def cleanStr (s : Str) : Str :=
  s.filter (fun c => !(isTermPunct c || c = '，' || c = '、' || isPySpace c))

/-- The sentence units of the first pass: a unit per terminal character
(text between the previous terminal and this one, stripped), plus a final
stripped remainder when the text does not end at a terminal. -/
def sentUnitsF : Nat → Str → List Str
  | 0, _ => []
  | fuel + 1, l =>
    match l.dropWhile (fun c => !isTermPunct c) with
    | [] =>
      if pyStrip l = [] then [] else [pyStrip l]
    | a :: t =>
      let u := pyStrip (l.takeWhile (fun c => !isTermPunct c) ++ [a])
      if u = [] then sentUnitsF fuel t else u :: sentUnitsF fuel t

def sentUnits (l : Str) : List Str := sentUnitsF (l.length + 1) l

/-! ### difflib.SequenceMatcher (used via .ratio()) -/

/-- The autojunk rule of SequenceMatcher: for a second sequence b of length
at least 200, an element occurring more than 1 + len(b)/100 times is junk. -/
def junkOf (b : Str) (c : Char) : Bool :=
  200 ≤ b.length && b.length / 100 + 1 < b.count c

/-- One dynamic-programming row of find_longest_match: entry j is the length
of the longest common suffix of the a-prefix ending at the current element
and the b-prefix ending at j (zero on junk b elements). -/
def flmRow (junk : Char → Bool) (ai : Char) (b : Str) (prev : List Nat) : List Nat :=
  List.zipWith (fun bj pj => if ai = bj && !junk bj then pj + 1 else 0) b (0 :: prev)

/-- Scan one row (j ascending) keeping the first strictly larger match,
exactly difflib's "if k > bestsize" update with besti = i-k+1, bestj = j-k+1. -/
def scanRow (i : Nat) : List Nat → Nat → Nat × Nat × Nat → Nat × Nat × Nat
  | [], _, best => best
  | k :: ks, j, (bi, bj, bk) =>
    scanRow i ks (j + 1) (if bk < k then (i + 1 - k, j + 1 - k, k) else (bi, bj, bk))

/-- All rows of find_longest_match (i ascending over a). -/
def flmRows (junk : Char → Bool) (b : Str) :
    List Char → List Nat → Nat → Nat × Nat × Nat → Nat × Nat × Nat
  | [], _, _, best => best
  | ai :: arest, prev, i, best =>
    let row := flmRow junk ai b prev
    flmRows junk b arest row (i + 1) (scanRow i row 0 best)

/-- The left extension loops of find_longest_match ("while besti > alo and
bestj > blo and isbjunk(...) == wantJunk and a[besti-1] == b[bestj-1]"). -/
def extendLower (a b : Str) (junk : Char → Bool) (wantJunk : Bool) :
    Nat → Nat × Nat × Nat → Nat × Nat × Nat
  | 0, best => best
  | fuel + 1, (bi, bj, bk) =>
    if 0 < bi ∧ 0 < bj ∧ junk (b.getD (bj - 1) ' ') = wantJunk ∧
        a.getD (bi - 1) ' ' = b.getD (bj - 1) ' ' then
      extendLower a b junk wantJunk fuel (bi - 1, bj - 1, bk + 1)
    else (bi, bj, bk)

/-- The right extension loops of find_longest_match. -/
def extendUpper (a b : Str) (junk : Char → Bool) (wantJunk : Bool) :
    Nat → Nat × Nat × Nat → Nat × Nat × Nat
  | 0, best => best
  | fuel + 1, (bi, bj, bk) =>
    if bi + bk < a.length ∧ bj + bk < b.length ∧
        junk (b.getD (bj + bk) ' ') = wantJunk ∧
        a.getD (bi + bk) ' ' = b.getD (bj + bk) ' ' then
      extendUpper a b junk wantJunk fuel (bi, bj, bk + 1)
    else (bi, bj, bk)

/-- find_longest_match on a pair of slices: dynamic programming over non-junk
matches, then the four junk-edge extension loops, in difflib's order. -/
def flm (junk : Char → Bool) (a b : Str) : Nat × Nat × Nat :=
  let b0 := flmRows junk b a (List.replicate b.length 0) 0 (0, 0, 0)
  let fuel := a.length + b.length
  let b1 := extendLower a b junk false fuel b0
  let b2 := extendUpper a b junk false fuel b1
  let b3 := extendLower a b junk true fuel b2
  extendUpper a b junk true fuel b3

/-- Total size of all matching blocks (the recursion of
get_matching_blocks); the fuel exceeds the recursion depth, which shrinks
the a-slice by at least one on every call. -/
def mbt (junk : Char → Bool) : Nat → Str → Str → Nat
  | 0, _, _ => 0
  | fuel + 1, a, b =>
    match flm junk a b with
    | (i, j, k) =>
      if k = 0 then 0
      else k + mbt junk fuel (a.take i) (b.take j) +
             mbt junk fuel (a.drop (i + k)) (b.drop (j + k))

/-- The number of matching elements M with ratio() = 2*M/(len(a)+len(b)). -/
def matchTotal (a b : Str) : Nat :=
  mbt (junkOf b) (a.length + 1) a b

/-- SequenceMatcher(None, a, b).ratio() >= 0.80, as the exact rational
comparison 2*M/(la+lb) >= 4/5.  When both strings are empty difflib
returns 1.0, matched here by 0 >= 0. -/
def simGE80 (a b : Str) : Bool :=
  2 * (a.length + b.length) ≤ 5 * matchTotal a b

/-- The duplicate test of the sentence pass: both punctuation-stripped forms
nonempty and similarity at least the 0.80 threshold (new sentence first,
kept sentence second, as in the source). -/
def collide (s k : Str) : Bool :=
  let c1 := cleanStr s
  let c2 := cleanStr k
  if c1 = [] || c2 = [] then false else simGE80 c1 c2

/-- One step of the sentence-pass loop: scan the kept units in order for the
first collision; on a collision the strictly longer string survives (the
shorter kept unit is removed and the new one appended at the end), otherwise
the new unit is appended. -/
def dedupStep (kept : List Str) (s : Str) : List Str :=
  match kept.find? (fun k => collide s k) with
  | some k => if k.length < s.length then (kept.erase k) ++ [s] else kept
  | none => kept ++ [s]

/-- The whole sentence pass. -/
def dedupPass1 (units : List Str) : List Str :=
  units.foldl dedupStep []

/-- Python str.split("\n\n"): left-to-right, non-overlapping. -/
def splitOn2NL : Str → Str → List Str
  | [], acc => [acc.reverse]
  | '\n' :: '\n' :: rest, acc => acc.reverse :: splitOn2NL rest []
  | c :: rest, acc => splitOn2NL rest (c :: acc)

/-- The duplicate test of the paragraph pass: both paragraphs carry a speaker
tag, the tags are equal, both tag-stripped contents are nonempty, and the
punctuation-stripped contents reach the threshold. -/
def paraCollide (p k : Str) : Bool :=
  match lineTag p, lineTag k with
  | some (t1, c1), some (t2, c2) =>
    if t1 = t2 then
      let c1s := pyStrip c1
      let c2s := pyStrip c2
      if c1s = [] || c2s = [] then false else simGE80 (cleanStr c1s) (cleanStr c2s)
    else false
  | _, _ => false

/-- One step of the paragraph-pass loop (empty paragraphs are skipped). -/
def paraStep (kept : List Str) (para : Str) : List Str :=
  let p := pyStrip para
  if p = [] then kept
  else
    match kept.find? (fun k => paraCollide p k) with
    | some k => if k.length < p.length then (kept.erase k) ++ [p] else kept
    | none => kept ++ [p]

/-- "\n\n".join and ''.join are joinSep nl2 and List.join. -/
def joinSep (sep : Str) : List Str → Str
  | [] => []
  | [x] => x
  | x :: y :: rest => x ++ sep ++ joinSep sep (y :: rest)

/-- remove_duplicates(text) (lines 256-364): sentence pass, then - only when
the joined result contains both a '[' and the two-character marker "]：" -
the speaker-paragraph pass over "\n\n"-separated paragraphs. -/
def removeDuplicates (text : Str) : Str :=
  let dedupText := (dedupPass1 (sentUnits text)).flatten
  if dedupText.contains '[' && pyIn [']', '：'] dedupText then
    joinSep nl2 ((splitOn2NL dedupText []).foldl paraStep [])
  else dedupText

/-! ## format_speaker_paragraphs (lines 366-395) -/

/-- The scan of re.sub(r'【([^】]+)】', replacer, text): at a position that
starts a 【label】 tag the tag is re-emitted with a newline in front unless
the match is at position zero; other characters pass through. -/
def fspGoF : Nat → Str → Bool → Str
  | 0, l, _ => l
  | _, [], _ => []
  | fuel + 1, c :: rest, atStart =>
    if c = '【' ∧ rest.takeWhile (fun x => !(x = '】')) ≠ [] then
      match rest.dropWhile (fun x => !(x = '】')) with
      | '】' :: r2 =>
        (if atStart then [] else ['\n']) ++
          ('【' :: rest.takeWhile (fun x => !(x = '】')) ++ '】' :: fspGoF fuel r2 false)
      | _ => c :: fspGoF fuel rest false
    else c :: fspGoF fuel rest false

/-- format_speaker_paragraphs: re-emit with a newline before every speaker
tag except one at the start, then lstrip('\n').  Every step of the scan
consumes at least one character, so length + 1 fuel suffices. -/
def formatSpeakerParagraphs (text : Str) : Str :=
  (fspGoF (text.length + 1) text true).dropWhile (fun c => c = '\n')

/-! ## detect_repetition (lines 397-420) -/

/-- The window text[-500:-w] (len > 500) or text[:-w] that the trailing
window is searched in. -/
def searchRange (text : Str) (w : Nat) : Str :=
  if 500 < text.length then (text.drop (text.length - 500)).take (500 - w)
  else text.take (text.length - w)

/-- detect_repetition(text, window_size): too-short texts never report;
otherwise report iff the trailing w characters occur in the search window.
(Python slice semantics coincide with this for w >= 1, the only values
used; the default is w = 100.) -/
def detectRepetition (text : Str) (w : Nat) : Bool :=
  if text.length < w * 2 then false
  else pyIn (text.drop (text.length - w)) (searchRange text w)

/-! ## The streaming read loop of _stream_response (lines 482-574).
A frame is one parsed line of the response: a text delta and the done flag,
or an undecodable line (skipped).  The wall-clock idle watchdog is elided
(it depends on time.time()); everything else follows the loop body:
append the delta, stop on done, then run the repetition check whenever the
accumulated text grew by at least 500 characters since the last check. -/

inductive Frame where
  | fr (resp : Option Str) (fin : Bool)
  | malformed
deriving DecidableEq

inductive StopReason where
  | completed
  | repetitionStopped
  | exhausted
deriving DecidableEq

/-- The read loop; returns the accumulated text, why the loop stopped, and
the frames left unconsumed. -/
def streamLoop : List Frame → Str → Nat → Str × StopReason × List Frame
  | [], text, _ => (text, .exhausted, [])
  | .malformed :: rest, text, lastCheck => streamLoop rest text lastCheck
  | .fr resp fin :: rest, text, lastCheck =>
    let text' := match resp with | some d => text ++ d | none => text
    if fin then (text', .completed, rest)
    else if 500 ≤ text'.length - lastCheck then
      if detectRepetition text' 100 then (text', .repetitionStopped, rest)
      else streamLoop rest text' text'.length
    else streamLoop rest text' lastCheck

/-- Total length of the deltas carried by a frame list. -/
def sumDeltas : List Frame → Nat
  | [] => 0
  | .fr (some d) _ :: rest => d.length + sumDeltas rest
  | .fr none _ :: rest => sumDeltas rest
  | .malformed :: rest => sumDeltas rest

/-- _stream_response's return value: the stripped accumulated text (the
empty-result branches return "" which equals the stripped text). -/
def streamResponse (frames : List Frame) : Str :=
  pyStrip (streamLoop frames [] 0).1

/-! ## call_ollama (lines 422-480) -/

/-- One non-streaming attempt as seen by the retry loop: the decoded
response text, or the exception class that was raised. -/
inductive Outcome where
  | ok (s : Str)
  | timeout
  | transportError

/-- An outcome that does not produce usable text. -/
def attemptFails : Outcome → Prop
  | .ok s => pyStrip s = []
  | .timeout => True
  | .transportError => True

/-- The retry loop of call_ollama with use_stream=False: non-empty stripped
text returns; empty text, Timeout and RequestException retry while
attempt < max_retries and otherwise return "". -/
def callNSLoop (supply : Nat → Outcome) (maxRetries : Nat) : Nat → Nat → Str
  | 0, _ => []
  | fuel + 1, attempt =>
    match supply attempt with
    | .ok s =>
      if pyStrip s = [] then
        if attempt < maxRetries then callNSLoop supply maxRetries fuel (attempt + 1) else []
      else pyStrip s
    | .timeout =>
      if attempt < maxRetries then callNSLoop supply maxRetries fuel (attempt + 1) else []
    | .transportError =>
      if attempt < maxRetries then callNSLoop supply maxRetries fuel (attempt + 1) else []

/-- call_ollama with use_stream=False. -/
def callOllamaNS (supply : Nat → Outcome) (maxRetries : Nat) : Str :=
  callNSLoop supply maxRetries (maxRetries + 1) 0

/-- The retry loop of call_ollama with use_stream=True (the default): the
body is "return self._stream_response(payload, attempt)", and
_stream_response catches every exception internally and returns a string,
so the loop returns whatever the first attempt produced - including "" -
and no further iteration is reachable. -/
def callStreamLoop (attempts : Nat → List Frame) : Nat → Nat → Str
  | 0, _ => []
  | _fuel + 1, attempt => streamResponse (attempts attempt)

/-- call_ollama with use_stream=True. -/
def callOllamaStream (attempts : Nat → List Frame) (maxRetries : Nat) : Str :=
  callStreamLoop attempts (maxRetries + 1) 0

/-! ## process_transcript (lines 576-688), per-chunk logic -/

/-- The body of the per-chunk loop of process_transcript, with calls n
giving the value returned by the n-th call_ollama invocation for this
chunk.  Returns the text appended to processed_chunks and the number of
call_ollama invocations made.  The test "result_ratio < 60" with
result_ratio = len(result)/chunk_length*100 is the exact comparison
100*len(result) < 60*len(chunk). -/
def processChunkFull (chunk : Str) (calls : Nat → Str) : Str × Nat :=
  let r0 := calls 0
  if r0 = [] then (chunk, 1)
  else
    let d0 := removeDuplicates r0
    if 100 * d0.length < 60 * chunk.length then
      let r1 := calls 1
      let res := if r1 = [] then ([] : Str) else removeDuplicates r1
      let f := formatSpeakerParagraphs res
      (if f = [] then chunk else f, 2)
    else
      let f := formatSpeakerParagraphs d0
      (if f = [] then chunk else f, 1)

/-- process_transcript's final document: the per-chunk outputs joined by
"\n\n", with gens i the call_ollama results for chunk i. -/
def processTranscript (chunks : List Str) (gens : Nat → Nat → Str) : Str :=
  joinSep nl2 ((List.range chunks.length).map
    fun i => (processChunkFull (chunks.getD i []) (gens i)).1)

/-! ## Concrete inputs used by the counterexamples and witnesses -/

/-- Three sentences A, B, C with sim(B,A) = 0.70, sim(C,A) = 10/11,
sim(C,B) = 9/11 and C strictly longest. -/
def t3 : Str := "aaaaaaaaaa。aaaaaaabbb。aaaaaaaaaabb。".toList

/-- The same collision pattern with different letters, for the kept-pair
invariant. -/
def t4 : Str := "cccccccccc。cccccccddd。ccccccccccdd。".toList

/-- A transcript with content before the first speaker tag. -/
def t1 : Str := "x\n[A]：y".toList

/-- Two six-character speaker blocks: they pack at 6+6 = 12 exactly, and the
re-inserted separator makes the segment 14 characters long. -/
def t2 : Str := "[A]：aa\n[B]：bb".toList

/-- The non-whitespace characters of a text, in order: the content that
"lossless up to separator whitespace" must preserve. -/
def nonWS (l : Str) : Str := l.filter (fun c => !isPySpace c)

/-! # Theorems -/

/-! ## Substring-search facts about pyIn -/

theorem isPrefixOf_length_le {n h : Str} (hp : n.isPrefixOf h = true) :
    n.length ≤ h.length :=
  (List.isPrefixOf_iff_prefix.mp hp).length_le

theorem pyIn_length_le : ∀ {h n : Str}, pyIn n h = true → n.length ≤ h.length
  | [], n, hp => by
    simp only [pyIn] at hp
    exact isPrefixOf_length_le hp
  | c :: t, n, hp => by
    simp only [pyIn, Bool.or_eq_true] at hp
    rcases hp with hp | hp
    · exact isPrefixOf_length_le hp
    · exact (pyIn_length_le hp).trans (by simp)

theorem pyIn_self_append (n r : Str) : pyIn n (n ++ r) = true := by
  have hpre : n.isPrefixOf (n ++ r) = true := List.isPrefixOf_iff_prefix.mpr ⟨r, rfl⟩
  cases hnr : n ++ r with
  | nil => rw [hnr] at hpre; simp [pyIn, hpre]
  | cons c t => rw [hnr] at hpre; simp [pyIn, hpre]

theorem pyIn_append_left (pre : Str) {n h : Str} (hp : pyIn n h = true) :
    pyIn n (pre ++ h) = true := by
  induction pre with
  | nil => simpa using hp
  | cons c cs ih =>
    simp only [List.cons_append, pyIn, List.append_eq]
    rw [ih]
    simp

theorem pyIn_joinSep (sep : Str) :
    ∀ (l : List Str) {u : Str}, u ∈ l → pyIn u (joinSep sep l) = true
  | [], u, hu => absurd hu (List.not_mem_nil u)
  | [x], u, hu => by
    rcases List.mem_singleton.mp hu with rfl
    simpa using pyIn_self_append u []
  | x :: y :: rest, u, hu => by
    rcases List.mem_cons.mp hu with rfl | hu
    · simpa [joinSep, List.append_assoc] using pyIn_self_append u (sep ++ joinSep sep (y :: rest))
    · have ih := pyIn_joinSep sep (y :: rest) hu
      simpa [joinSep, List.append_assoc] using pyIn_append_left (x ++ sep) ih

/-! ## Facts about pyStrip -/

theorem dropWhile_head_false {p : Char → Bool} {l : Str} {a : Char} {t : Str}
    (h : l.dropWhile p = a :: t) : p a = false := by
  have hh := List.head?_dropWhile_not p l
  rw [h] at hh
  simpa using hh

theorem dropWhile_idem (p : Char → Bool) (l : Str) :
    (l.dropWhile p).dropWhile p = l.dropWhile p := by
  cases h : l.dropWhile p with
  | nil => rfl
  | cons a t => exact List.dropWhile_cons_of_neg (by simp [dropWhile_head_false h])

theorem length_pyStrip_le (l : Str) : (pyStrip l).length ≤ l.length := by
  unfold pyStrip
  have h1 : (l.dropWhile isPySpace).length ≤ l.length :=
    (List.dropWhile_sublist _).length_le
  have h2 : ((l.dropWhile isPySpace).reverse.dropWhile isPySpace).length ≤
      (l.dropWhile isPySpace).reverse.length :=
    (List.dropWhile_sublist _).length_le
  simp only [List.length_reverse] at h2 ⊢
  omega

theorem filter_dropWhile (p : Char → Bool) (l : Str) :
    (l.dropWhile p).filter (fun c => !p c) = l.filter (fun c => !p c) := by
  induction l with
  | nil => rfl
  | cons a t ih =>
    by_cases hpa : p a = true
    · rw [List.dropWhile_cons_of_pos hpa, ih, List.filter_cons_of_neg (by simp [hpa])]
    · rw [List.dropWhile_cons_of_neg (by simp [hpa])]

theorem nonWS_pyStrip (l : Str) : nonWS (pyStrip l) = nonWS l := by
  unfold pyStrip nonWS
  rw [List.filter_reverse, filter_dropWhile, List.filter_reverse,
    List.reverse_reverse, filter_dropWhile]

theorem mem_pyStrip {a : Char} {l : Str} (h : a ∈ pyStrip l) : a ∈ l := by
  unfold pyStrip at h
  rw [List.mem_reverse] at h
  have h2 := (List.dropWhile_sublist (l := (l.dropWhile isPySpace).reverse) isPySpace).subset h
  rw [List.mem_reverse] at h2
  exact (List.dropWhile_sublist _).subset h2

theorem pyStrip_idem (l : Str) : pyStrip (pyStrip l) = pyStrip l := by
  have key : ∀ x : Str, (pyStrip x).dropWhile isPySpace = pyStrip x := by
    intro x
    have hpre : pyStrip x <+: x.dropWhile isPySpace := by
      unfold pyStrip
      have hs := List.dropWhile_suffix (l := (x.dropWhile isPySpace).reverse) isPySpace
      have := List.reverse_prefix.mpr hs
      simpa using this
    cases hS : pyStrip x with
    | nil => rfl
    | cons s ss =>
      rw [hS] at hpre
      cases hA : x.dropWhile isPySpace with
      | nil =>
        rw [hA] at hpre
        exact absurd (List.prefix_nil.mp hpre) (by simp)
      | cons a t =>
        rw [hA] at hpre
        obtain ⟨r, hr⟩ := hpre
        have hsa : s = a := by
          have := hr
          simp only [List.cons_append] at this
          exact (List.cons.injEq _ _ _ _ ▸ this).1
        refine List.dropWhile_cons_of_neg ?_
        rw [hsa]
        simp [dropWhile_head_false hA]
  have hB : pyStrip l = ((l.dropWhile isPySpace).reverse.dropWhile isPySpace).reverse := rfl
  calc pyStrip (pyStrip l)
      = (((pyStrip l).dropWhile isPySpace).reverse.dropWhile isPySpace).reverse := rfl
    _ = ((pyStrip l).reverse.dropWhile isPySpace).reverse := by rw [key l]
    _ = pyStrip l := by rw [hB, List.reverse_reverse, dropWhile_idem]

/-! ## Reconstruction facts for the Chunker -/

theorem nonWS_append (x y : Str) : nonWS (x ++ y) = nonWS x ++ nonWS y :=
  List.filter_append ..

theorem nonWS_nil : nonWS [] = [] := rfl

theorem reSplitRunsF_flatten :
    ∀ (fuel : Nat) (l : Str), l.length < fuel → (reSplitRunsF fuel l).flatten = l := by
  intro fuel
  induction fuel with
  | zero => intro l h; omega
  | succ n ih =>
    intro l hl
    simp only [reSplitRunsF]
    split
    · rename_i heq
      simp only [List.flatten_cons, List.flatten_nil, List.append_nil]
      conv_rhs => rw [← List.takeWhile_append_dropWhile (p := fun c => !isSentEnd c) (l := l)]
      rw [heq, List.append_nil]
    · rename_i a t heq
      have ha : isSentEnd a = true := by
        have := dropWhile_head_false heq
        simpa using this
      have hrec : ((a :: t).dropWhile isSentEnd).length < n := by
        have h1 : (a :: t).length ≤ l.length := by
          rw [← heq]
          exact (List.dropWhile_sublist _).length_le
        have h2 : ((a :: t).dropWhile isSentEnd).length ≤ t.length := by
          rw [List.dropWhile_cons_of_pos ha]
          exact (List.dropWhile_sublist _).length_le
        simp only [List.length_cons] at h1
        omega
      simp only [List.flatten_cons]
      rw [ih _ hrec, List.takeWhile_append_dropWhile, ← heq,
        List.takeWhile_append_dropWhile]

theorem pairUp_flatten : ∀ ls : List Str, (pairUp ls).flatten = ls.flatten
  | [] => rfl
  | [t] => by simp [pairUp]
  | t :: s :: rest => by
    simp only [pairUp, List.flatten_cons]
    rw [pairUp_flatten rest]
    simp [List.append_assoc]

theorem packUnits_nonWS (sep : Str) (hsep : nonWS sep = []) (N : Nat) :
    ∀ (units chunks : List Str) (cur : Str),
      nonWS (packUnits sep N units chunks cur).flatten =
        nonWS chunks.flatten ++ (nonWS cur ++ nonWS units.flatten)
  | [], chunks, cur => by
    simp only [packUnits]
    split
    · rename_i hcur
      have h0 : nonWS cur = [] := by rw [← nonWS_pyStrip, hcur]; rfl
      simp [h0, nonWS_nil]
    · simp [List.flatten_append, nonWS_append, nonWS_pyStrip, nonWS_nil]
  | u :: rest, chunks, cur => by
    simp only [packUnits]
    split
    · rw [packUnits_nonWS sep hsep N rest chunks _]
      have hcur' : nonWS (if cur = [] then u else cur ++ sep ++ u) = nonWS cur ++ nonWS u := by
        split
        · rename_i hc
          subst hc
          rfl
        · rw [nonWS_append, nonWS_append, hsep, List.append_nil]
      rw [hcur']
      simp only [List.flatten_cons, nonWS_append, List.append_assoc]
    · rw [packUnits_nonWS sep hsep N rest _ u]
      have hch : nonWS (if pyStrip cur = [] then chunks else chunks ++ [pyStrip cur]).flatten =
          nonWS chunks.flatten ++ nonWS cur := by
        split
        · rename_i hcur
          have h0 : nonWS cur = [] := by rw [← nonWS_pyStrip, hcur]; rfl
          simp [h0]
        · simp [List.flatten_append, nonWS_append, nonWS_pyStrip, nonWS_nil]
      rw [hch]
      simp only [List.flatten_cons, nonWS_append, List.append_assoc]

/-- C1 (amended): when the speaker-block scan finds no speaker block, the
concatenation of the returned segments preserves exactly the non-whitespace
characters of the original text, in order (the separators dropped or
re-inserted by splitting are whitespace). -/
theorem c1_fallback_preservation (text : Str) (N : Nat)
    (h : speakerBlocksOf text = []) :
    nonWS (splitText text N).flatten = nonWS text := by
  simp only [splitText]
  rw [h, if_pos rfl]
  split
  · simp
  · rw [packUnits_nonWS [] rfl N, pairUp_flatten]
    simp only [reSplitRuns]
    rw [reSplitRunsF_flatten (text.length + 1) text (by omega)]
    simp [nonWS_nil]

theorem c1_fallback_preservation_witness :
    speakerBlocksOf "abc".toList = [] ∧
    nonWS (splitText "abc".toList 5).flatten = nonWS "abc".toList :=
  ⟨by decide, c1_fallback_preservation _ 5 (by decide)⟩

/-- C1 counterexample: for the transcript "x\n[A]：y" with budget 1000 the
speaker path drops the line "x" that precedes the first speaker tag, so the
segments do not reconstruct the text - the non-whitespace character x of
the input is lost. -/
theorem c1_counterexample :
    splitText t1 1000 = ["[A]：y".toList] ∧
    nonWS (splitText t1 1000).flatten ≠ nonWS t1 := by
  constructor
  · decide
  · decide

/-- The invariant of greedy packing: every produced chunk is either within
budget plus the separator length, or the strip of a single oversized
packing unit. -/
theorem packUnits_bound (sep : Str) (N : Nat) (U : List Str) :
    ∀ (units chunks : List Str) (cur : Str),
      (∀ u ∈ units, u ∈ U) →
      (∀ c ∈ chunks, c.length ≤ N + sep.length ∨ ∃ u ∈ U, c = pyStrip u ∧ N < u.length) →
      (cur.length ≤ N + sep.length ∨ ∃ u ∈ U, cur = u ∧ N < u.length) →
      ∀ c ∈ packUnits sep N units chunks cur,
        c.length ≤ N + sep.length ∨ ∃ u ∈ U, c = pyStrip u ∧ N < u.length
  | [], chunks, cur => by
    intro _ hchunks hcur c hc
    simp only [packUnits] at hc
    split at hc
    · exact hchunks c hc
    · rcases List.mem_append.mp hc with hc | hc
      · exact hchunks c hc
      · rcases List.mem_singleton.mp hc with rfl
        rcases hcur with hlen | ⟨u, hu, hequ, hover⟩
        · exact Or.inl ((length_pyStrip_le cur).trans hlen)
        · exact Or.inr ⟨u, hu, congrArg pyStrip hequ, hover⟩
  | u :: rest, chunks, cur => by
    intro hunits hchunks hcur c hc
    simp only [packUnits] at hc
    split at hc
    · rename_i hfit
      refine packUnits_bound sep N U rest chunks _
        (fun v hv => hunits v (List.mem_cons_of_mem u hv)) hchunks ?_ c hc
      left
      split
      · rename_i hnil
        subst hnil
        simp only [List.length_nil, Nat.zero_add] at hfit
        omega
      · simp only [List.length_append]
        omega
    · refine packUnits_bound sep N U rest _ u
        (fun v hv => hunits v (List.mem_cons_of_mem u hv)) ?_ ?_ c hc
      · intro d hd
        split at hd
        · exact hchunks d hd
        · rcases List.mem_append.mp hd with hd | hd
          · exact hchunks d hd
          · rcases List.mem_singleton.mp hd with rfl
            rcases hcur with hlen | ⟨v, hv, heqv, hover⟩
            · exact Or.inl ((length_pyStrip_le cur).trans hlen)
            · exact Or.inr ⟨v, hv, congrArg pyStrip heqv, hover⟩
      · by_cases hu : u.length ≤ N + sep.length
        · exact Or.inl hu
        · exact Or.inr ⟨u, hunits u (List.mem_cons_self u rest), rfl, by omega⟩

/-- C2 (amended): every returned segment is within budget N plus the two
characters of the paragraph separator that the packing test does not count,
unless it is the strip of a single packing unit that alone exceeds N (which
is then a segment of its own), or the whole text returned because no
non-whitespace chunk was produced.  Packing is inclusive at the boundary:
the two 6-character blocks of t2 pack at 6+6 = 12 into one segment. -/
theorem c2_segment_bound :
    (∀ (text : Str) (N : Nat), ∀ c ∈ splitText text N,
        c.length ≤ N + 2 ∨ (∃ u ∈ packingUnits text, c = pyStrip u ∧ N < u.length) ∨
        c = text) ∧
    splitText t2 12 = ["[A]：aa\n\n[B]：bb".toList] := by
  constructor
  · intro text N c hc
    simp only [splitText] at hc
    by_cases hb : speakerBlocksOf text = []
    · rw [hb, if_pos rfl] at hc
      split at hc
      · rcases List.mem_singleton.mp hc with rfl
        exact Or.inr (Or.inr rfl)
      · have hU : packingUnits text = pairUp (reSplitRuns text) := by
          simp [packingUnits, hb]
        have hres := packUnits_bound [] N (pairUp (reSplitRuns text))
          (pairUp (reSplitRuns text)) [] [] (fun v hv => hv) (by simp) (Or.inl (by simp)) c hc
        rcases hres with hlen | ⟨u, hu, hequ, hover⟩
        · left
          simp only [List.length_nil] at hlen
          omega
        · exact Or.inr (Or.inl ⟨u, hU ▸ hu, hequ, hover⟩)
    · rw [if_neg hb] at hc
      split at hc
      · rcases List.mem_singleton.mp hc with rfl
        exact Or.inr (Or.inr rfl)
      · have hU : packingUnits text = speakerBlocksOf text := by
          simp [packingUnits, hb]
        have hres := packUnits_bound nl2 N (speakerBlocksOf text)
          (speakerBlocksOf text) [] [] (fun v hv => hv) (by simp) (Or.inl (by simp)) c hc
        rcases hres with hlen | ⟨u, hu, hequ, hover⟩
        · left
          simpa [nl2] using hlen
        · exact Or.inr (Or.inl ⟨u, hU ▸ hu, hequ, hover⟩)
  · decide

theorem c2_segment_bound_witness :
    "xy".toList ∈ splitText "xy".toList 7 ∧
    ("xy".toList.length ≤ 7 + 2 ∨
      (∃ u ∈ packingUnits "xy".toList, "xy".toList = pyStrip u ∧ 7 < u.length) ∨
      "xy".toList = "xy".toList) :=
  ⟨by decide, c2_segment_bound.1 "xy".toList 7 "xy".toList (by decide)⟩

/-- C2 counterexample: in t2 no speaker block is longer than the budget 12,
yet the single returned segment has 14 characters, because the greedy
packing test current + next <= max_chars does not count the two-character
separator "\n\n" it inserts between packed blocks. -/
theorem c2_counterexample :
    splitText t2 12 = ["[A]：aa\n\n[B]：bb".toList] ∧
    (∀ u ∈ speakerBlocksOf t2, u.length ≤ 12) ∧
    12 < ("[A]：aa\n\n[B]：bb".toList : Str).length := by
  refine ⟨by decide, by decide, by decide⟩

/-! ## Deduplicator facts -/

/-- On a text with no sentence-terminal punctuation and no left bracket the
Deduplicator reduces to a plain strip: the single unit survives both passes
unchanged. -/
theorem removeDuplicates_nopunct (x : Str)
    (h1 : ∀ c ∈ x, isTermPunct c = false) (h2 : ('[' : Char) ∉ x) :
    removeDuplicates x = pyStrip x := by
  have hdw : x.dropWhile (fun c => !isTermPunct c) = [] := by
    rw [List.dropWhile_eq_nil_iff]
    intro a ha
    simp [h1 a ha]
  have hunits : sentUnits x = if pyStrip x = [] then [] else [pyStrip x] := by
    simp only [sentUnits, sentUnitsF, hdw]
  have hpass : (dedupPass1 (sentUnits x)).flatten = pyStrip x := by
    rw [hunits]
    split
    · rename_i hnil
      simp [dedupPass1, hnil]
    · simp [dedupPass1, dedupStep, List.find?]
  have hnotin : ('[' : Char) ∉ pyStrip x := fun hm => h2 (mem_pyStrip hm)
  have hcontains : (pyStrip x).contains '[' = false := by
    rw [Bool.eq_false_iff]
    intro hc
    exact hnotin (List.mem_of_elem_eq_true hc)
  simp only [removeDuplicates]
  rw [hpass, hcontains]
  simp

/-- C3 (amended): dedup is idempotent on every text containing none of the
sentence-terminal characters and no left bracket; it is not idempotent in
general, because a replacement moves the surviving longer unit to the end
of the kept list without re-checking it against the other kept units. -/
theorem c3_idempotent_restricted (x : Str)
    (h1 : ∀ c ∈ x, isTermPunct c = false) (h2 : ('[' : Char) ∉ x) :
    removeDuplicates (removeDuplicates x) = removeDuplicates x := by
  have hx := removeDuplicates_nopunct x h1 h2
  have h1' : ∀ c ∈ pyStrip x, isTermPunct c = false := fun c hc => h1 c (mem_pyStrip hc)
  have h2' : ('[' : Char) ∉ pyStrip x := fun hm => h2 (mem_pyStrip hm)
  rw [hx, removeDuplicates_nopunct _ h1' h2']
  exact pyStrip_idem x

theorem c3_idempotent_restricted_witness :
    (∀ c ∈ "ab cd".toList, isTermPunct c = false) ∧ ('[' : Char) ∉ "ab cd".toList ∧
    removeDuplicates (removeDuplicates "ab cd".toList) = removeDuplicates "ab cd".toList :=
  ⟨by decide, by decide, c3_idempotent_restricted _ (by decide) (by decide)⟩

/-- C3 counterexample: on t3 (three sentences A, B, C where C collides with
A and with B, but B does not collide with A, and C is strictly longest) the
first application keeps B then C (C replaced A and was appended at the end,
never compared with B); the second application removes B.  So dedup is not
idempotent. -/
theorem c3_counterexample :
    removeDuplicates (removeDuplicates t3) ≠ removeDuplicates t3 := by
  decide

theorem mem_dedupStep {kept : List Str} {s u : Str} (h : u ∈ dedupStep kept s) :
    u ∈ kept ∨ u = s := by
  unfold dedupStep at h
  split at h
  · split at h
    · rcases List.mem_append.mp h with h | h
      · exact Or.inl (List.mem_of_mem_erase h)
      · exact Or.inr (List.mem_singleton.mp h)
    · exact Or.inl h
  · rcases List.mem_append.mp h with h | h
    · exact Or.inl h
    · exact Or.inr (List.mem_singleton.mp h)

theorem foldl_dedupStep_subset :
    ∀ (units init : List Str) (u : Str), u ∈ units.foldl dedupStep init → u ∈ init ∨ u ∈ units
  | [], _, _ => fun h => Or.inl h
  | s :: rest, init, u => fun h => by
    rcases foldl_dedupStep_subset rest (dedupStep init s) u h with h1 | h1
    · rcases mem_dedupStep h1 with h2 | h2
      · exact Or.inl h2
      · exact Or.inr (by rw [h2]; exact List.mem_cons_self s rest)
    · exact Or.inr (List.mem_cons_of_mem s h1)

/-- C4 (amended): every kept unit of the sentence pass is one of the input
units, and at each individual collision the strictly longer of the compared
pair survives - the first colliding kept unit is replaced when the new unit
is strictly longer, and kept (the new unit discarded) otherwise, so
equal-length collisions keep the first-seen unit.  The global
pairwise-below-threshold invariant does not hold, because a replacement is
appended at the end of the kept list and never re-compared. -/
theorem c4_collision_rule :
    (∀ (units : List Str) (u : Str), u ∈ dedupPass1 units → u ∈ units) ∧
    (∀ (kept : List Str) (s k : Str), kept.find? (fun k' => collide s k') = some k →
      (k.length < s.length → dedupStep kept s = (kept.erase k) ++ [s]) ∧
      (¬ k.length < s.length → dedupStep kept s = kept)) := by
  constructor
  · intro units u h
    rcases foldl_dedupStep_subset units [] u h with h | h
    · exact absurd h (List.not_mem_nil u)
    · exact h
  · intro kept s k hf
    constructor <;> intro hlen <;> simp [dedupStep, hf, hlen]

theorem c4_collision_rule_witness :
    "a".toList ∈ ["a".toList] ∧
    dedupStep ["ab".toList] "abc".toList =
      (["ab".toList].erase "ab".toList) ++ ["abc".toList] :=
  ⟨c4_collision_rule.1 ["a".toList] "a".toList (by decide),
   (c4_collision_rule.2 ["ab".toList] "abc".toList "ab".toList (by decide)).1 (by decide)⟩

/-- C4 counterexample: the output of dedup on t4 consists of the two units
B and C whose normalized similarity is 9/11, at least the 0.80 threshold -
two kept units that collide, and the longer one (C) did not displace B. -/
theorem c4_counterexample :
    sentUnits (removeDuplicates t4) = ["cccccccddd。".toList, "ccccccccccdd。".toList] ∧
    collide "ccccccccccdd。".toList "cccccccddd。".toList = true := by
  exact ⟨by decide, by decide⟩

/-! ## Chunker edge case: empty input -/

/-- C9 (amended): for the empty input split_text returns [text], a
single-element list containing the empty string - not the empty list: the
empty fallback chunk list triggers the final "chunks if chunks else [text]"
return. -/
theorem c9_empty_input (N : Nat) : splitText [] N = [[]] := by
  simp only [splitText]
  rw [show speakerBlocksOf ([] : Str) = [] from rfl, if_pos rfl]
  rw [show pairUp (reSplitRuns ([] : Str)) = [[]] from rfl]
  simp [packUnits, pyStrip]

/-- C9 counterexample: split of the empty string is [""], which is not the
empty list the claim demands. -/
theorem c9_counterexample :
    splitText [] 1000 = [[]] ∧ splitText [] 1000 ≠ [] := by
  exact ⟨by decide, by decide⟩

/-! ## Repetition watchdog -/

/-- C5: when the trailing 100 characters of the accumulated text occur
verbatim in the search window that the detector uses - text[-500:-100],
the at most 400 characters that precede the tail inside the preceding
500-character window - detect_repetition reports a repetition; and whenever
a frame makes the accumulated output grow to at least 500 characters past
the last check (the repetition-check interval) while the detector fires on
the accumulated text, the stream loop stops right there with
RepetitionStopped and consumes no further frames. -/
theorem c5_repetition_stop :
    (∀ text : Str, 100 ≤ text.length →
      pyIn (text.drop (text.length - 100)) (searchRange text 100) = true →
      detectRepetition text 100 = true) ∧
    (∀ (d : Str) (rest : List Frame) (text : Str) (lastCheck : Nat),
      500 ≤ (text ++ d).length - lastCheck →
      detectRepetition (text ++ d) 100 = true →
      streamLoop (Frame.fr (some d) false :: rest) text lastCheck =
        (text ++ d, StopReason.repetitionStopped, rest)) := by
  constructor
  · intro text hlen hin
    unfold detectRepetition
    rw [if_neg]
    · exact hin
    · intro hshort
      have hle := pyIn_length_le hin
      rw [List.length_drop] at hle
      have hrange : (searchRange text 100).length ≤ text.length - 100 := by
        unfold searchRange
        split
        · rename_i h500
          exact absurd h500 (by omega)
        · rw [List.length_take]
          omega
      omega
  · intro d rest text lastCheck hgrow hdet
    simp only [streamLoop, Bool.false_eq_true, if_false]
    rw [if_pos hgrow, if_pos hdet]

theorem c5_repetition_stop_witness :
    detectRepetition (List.replicate 200 'a') 100 = true ∧
    streamLoop [Frame.fr (some (List.replicate 300 'a')) false] (List.replicate 200 'a') 0 =
      (List.replicate 200 'a' ++ List.replicate 300 'a', StopReason.repetitionStopped, []) :=
  ⟨c5_repetition_stop.1 _ (by decide) (by decide),
   c5_repetition_stop.2 _ [] _ 0 (by decide) (by decide)⟩

/-- C10: detect_repetition returns false on every text shorter than twice
the window size (with the default window of 100: shorter than 200
characters), however repetitive it is; consequently the stream loop can
never stop with RepetitionStopped while the accumulated text plus all the
deltas the remaining frames can deliver stays under 200 characters. -/
theorem c10_short_text_no_repetition :
    (∀ (text : Str) (w : Nat), text.length < w * 2 → detectRepetition text w = false) ∧
    (∀ (frames : List Frame) (text : Str) (lastCheck : Nat),
      text.length + sumDeltas frames < 200 →
      (streamLoop frames text lastCheck).2.1 ≠ StopReason.repetitionStopped) := by
  have hguard : ∀ (text : Str) (w : Nat), text.length < w * 2 →
      detectRepetition text w = false := by
    intro text w h
    unfold detectRepetition
    rw [if_pos h]
  refine ⟨hguard, ?_⟩
  intro frames
  induction frames with
  | nil =>
    intro text lastCheck _
    simp [streamLoop]
  | cons f rest ih =>
    intro text lastCheck hlen
    match f with
    | .malformed =>
      simp only [streamLoop, sumDeltas] at hlen ⊢
      exact ih text lastCheck hlen
    | .fr (some d) fin =>
      simp only [streamLoop, sumDeltas] at hlen ⊢
      split
      · simp
      · split
        · rw [hguard (text ++ d) 100 (by simp only [List.length_append]; omega)]
          simp only [Bool.false_eq_true, if_false]
          exact ih (text ++ d) (text ++ d).length (by simp only [List.length_append]; omega)
        · exact ih (text ++ d) lastCheck (by simp only [List.length_append]; omega)
    | .fr none fin =>
      simp only [streamLoop, sumDeltas] at hlen ⊢
      split
      · simp
      · split
        · rw [hguard text 100 (by omega)]
          simp only [Bool.false_eq_true, if_false]
          exact ih text text.length (by omega)
        · exact ih text lastCheck (by omega)

theorem c10_short_text_no_repetition_witness :
    detectRepetition "abc".toList 100 = false ∧
    (streamLoop [Frame.fr (some "defg".toList) false] "abc".toList 0).2.1 ≠
      StopReason.repetitionStopped :=
  ⟨c10_short_text_no_repetition.1 _ 100 (by decide),
   c10_short_text_no_repetition.2 _ _ 0 (by decide)⟩

/-! ## Retry orchestration -/

/-- C6: with the default use_stream=True the attempt loop of call_ollama
returns the streaming branch's value unconditionally on the first
iteration, and _stream_response catches every exception internally and
returns a string, so an endpoint that yields whitespace-only output on the
first two attempts and non-empty output on the third makes call_ollama
return the empty first-attempt result, never reaching the third attempt -
even though _stream_response prints a retrying message for it.  The
non-streaming branch of the same method does return the third attempt's
output, which is the behaviour the claim (and the code's own retry loop)
describes. -/
theorem c6_stream_never_retries :
    callOllamaStream (fun i => if i = 2 then [Frame.fr (some "good".toList) true]
      else [Frame.fr (some "  ".toList) true]) 2 = [] ∧
    callOllamaNS (fun i => if i = 2 then Outcome.ok "good".toList
      else Outcome.ok "  ".toList) 2 = "good".toList ∧
    ([] : Str) ≠ "good".toList := by
  refine ⟨by decide, by decide, by decide⟩

/-- C7: the non-streaming retry loop of call_ollama never lets a transport
error or timeout escape - when every attempt within the budget fails
(exception, or whitespace-only output) the caller receives the empty
string instead of an exception - and every chunk whose generation came
back empty contributes its original source text verbatim to the final
document: it occurs as a substring of the "\n\n"-joined result of
process_transcript. -/
theorem c7_no_abort :
    (∀ (supply : Nat → Outcome) (maxRetries : Nat),
      (∀ i, i ≤ maxRetries → attemptFails (supply i)) →
      callOllamaNS supply maxRetries = []) ∧
    (∀ (chunks : List Str) (gens : Nat → Nat → Str) (i : Nat), i < chunks.length →
      gens i 0 = [] →
      pyIn (chunks.getD i []) (processTranscript chunks gens) = true) := by
  constructor
  · intro supply maxRetries hfail
    have key : ∀ (fuel attempt : Nat), attempt + fuel = maxRetries + 1 →
        callNSLoop supply maxRetries fuel attempt = [] := by
      intro fuel
      induction fuel with
      | zero => intro attempt _; rfl
      | succ n ih =>
        intro attempt hsum
        have hatt : attempt ≤ maxRetries := by omega
        have hfi := hfail attempt hatt
        cases hs : supply attempt with
        | ok s =>
          rw [hs] at hfi
          simp only [attemptFails] at hfi
          simp only [callNSLoop, hs]
          rw [if_pos hfi]
          split
          · exact ih (attempt + 1) (by omega)
          · rfl
        | timeout =>
          simp only [callNSLoop, hs]
          split
          · exact ih (attempt + 1) (by omega)
          · rfl
        | transportError =>
          simp only [callNSLoop, hs]
          split
          · exact ih (attempt + 1) (by omega)
          · rfl
    exact key (maxRetries + 1) 0 (by omega)
  · intro chunks gens i hi h0
    have hchunk : (processChunkFull (chunks.getD i []) (gens i)).1 = chunks.getD i [] := by
      simp [processChunkFull, h0]
    have hmem : chunks.getD i [] ∈ (List.range chunks.length).map
        (fun j => (processChunkFull (chunks.getD j []) (gens j)).1) :=
      List.mem_map.mpr ⟨i, List.mem_range.mpr hi, hchunk⟩
    exact pyIn_joinSep nl2 _ hmem

theorem c7_no_abort_witness :
    callOllamaNS (fun _ => Outcome.timeout) 2 = [] ∧
    pyIn "hi".toList (processTranscript ["hi".toList] (fun _ _ => [])) = true :=
  ⟨c7_no_abort.1 _ 2 (fun _ _ => trivial),
   c7_no_abort.2 ["hi".toList] (fun _ _ => []) 0 (by decide) rfl⟩

/-- C8: when the first generation succeeds (non-empty) but its deduplicated
output is shorter than 60 percent of the chunk, the per-chunk logic makes
exactly one extra call_ollama invocation (two in total) and keeps that
regeneration's output whatever its length ratio - it falls back to the
original chunk only when the regeneration is empty or formats to empty,
and runs no further length check or regeneration; when the ratio test
passes, exactly one call is made. -/
theorem c8_regeneration :
    (∀ (chunk : Str) (calls : Nat → Str), calls 0 ≠ [] →
      100 * (removeDuplicates (calls 0)).length < 60 * chunk.length →
      processChunkFull chunk calls =
        (if calls 1 = [] then chunk
         else if formatSpeakerParagraphs (removeDuplicates (calls 1)) = [] then chunk
         else formatSpeakerParagraphs (removeDuplicates (calls 1)), 2)) ∧
    (∀ (chunk : Str) (calls : Nat → Str), calls 0 ≠ [] →
      ¬ (100 * (removeDuplicates (calls 0)).length < 60 * chunk.length) →
      (processChunkFull chunk calls).2 = 1) := by
  constructor
  · intro chunk calls h0 hlow
    simp only [processChunkFull]
    rw [if_neg h0, if_pos hlow]
    by_cases h1 : calls 1 = []
    · simp [h1, formatSpeakerParagraphs, fspGoF]
    · simp [h1]
  · intro chunk calls h0 hnot
    simp only [processChunkFull]
    rw [if_neg h0, if_neg hnot]

theorem c8_regeneration_witness :
    processChunkFull "abcdefghij".toList
        (fun n => if n = 0 then "x。".toList else "yyyyy".toList) =
      ("yyyyy".toList, 2) := by
  have h := c8_regeneration.1 "abcdefghij".toList
    (fun n => if n = 0 then "x。".toList else "yyyyy".toList) (by decide) (by decide)
  rw [h]
  decide

end WFW
